import Mathlib

/-!
Verification of the Pristine Data cleaning dashboard (`src/clean1.py`).

The program is a Streamlit script over a pandas `DataFrame`.  We embed the
table and the edit operations shallowly:

* a `Table` is the column-name list, the row-label list (`df.index`) and the
  rows (lists of cell values);
* cell values are modelled textually (`Value.na` for pandas `NaN`, `Value.str`
  for everything else): the claims compare values only modulo type-to-text
  formatting, and pandas' numeric dtype inference is reflected in the derived
  `dtypeOf` function rather than in the cell representation;
* each edit operation (`clean1.py` lines 73-116) is a pure function, fallible
  ones return `Except String` (a pandas exception carries a message string
  which the outermost `try/except` at lines 57-168 shows via `st.error`);
* CSV serialisation (`convert_df_to_csv`, line 15-16, i.e.
  `df.to_csv(index=False).encode('utf-8')`) and parsing (`pd.read_csv`,
  line 63) are modelled at the character level with RFC-4180 minimal quoting,
  the convention pandas' csv writer and reader use by default.
-/

/-- A cell of the table: either missing (pandas `NaN`) or a textual value. -/
inductive Value where
  | na : Value
  | str (s : String) : Value
deriving DecidableEq, Repr

/-- The pandas `DataFrame`: ordered column names, row index labels
(`df.index`; `pd.read_csv` produces `0, 1, ..., n-1`, but `drop_duplicates`
may leave gaps), and the rows of cell values. -/
structure Table where
  cols : List String
  index : List Nat
  rows : List (List Value)
deriving DecidableEq, Repr

/-- The cell at row position `i` (position, not label) and column position
`j`, if both exist. -/
def cellAt (t : Table) (i j : Nat) : Option Value :=
  (t.rows.get? i).bind (fun r => r.get? j)

/-- Render a cell to CSV text, as `df.to_csv` does: `NaN` becomes the empty
field, text is written as is. -/
def renderCell : Value → String
  | Value.na => ""
  | Value.str s => s

/-- `df.at[label, col]` read access (`clean1.py` line 87):
`KeyError` when the row label or the column name is absent, otherwise the
cell at the first matching row label and column name. -/
def atRead (t : Table) (label : Nat) (col : String) : Except String Value :=
  if label ∈ t.index ∧ col ∈ t.cols then
    Except.ok (((t.rows.get? (t.index.indexOf label)).getD []).get?
      (t.cols.indexOf col) |>.getD Value.na)
  else
    Except.error "KeyError"

/-- Replace the cell at row position `i`, column position `j`. -/
def setCellRows (rows : List (List Value)) (i j : Nat) (v : Value) :
    List (List Value) :=
  rows.set i ((rows.get? i |>.getD []).set j v)

/-- The cell-edit operation (`clean1.py` lines 87-90): the script first reads
the current value with `df.at[selected_row, selected_column]` — raising
`KeyError` when the row label or column name is absent — and only then
executes `df.at[selected_row, selected_column] = new_value`, which with the
label and column present overwrites exactly that cell (the text-input value
is a string). -/
def editCell (t : Table) (label : Nat) (col : String) (v : String) :
    Except String Table :=
  match atRead t label col with
  | Except.error e => Except.error e
  | Except.ok _ =>
      Except.ok { t with
        rows := setCellRows t.rows (t.index.indexOf label)
          (t.cols.indexOf col) (Value.str v) }

/-- One row of the missing-value fill: cell `j` is replaced by the fill text
exactly when its column is selected and the cell is missing
(`df[cols].fillna(fill_value)`, `clean1.py` line 115). -/
def fillRow (sel : List String) (v : String) :
    List String → List Value → List Value
  | _, [] => []
  | [], r => r
  | c :: cs, x :: xs =>
      (if c ∈ sel ∧ x = Value.na then Value.str v else x) :: fillRow sel v cs xs

/-- The missing-value fill operation
(`df[fill_na_columns] = df[fill_na_columns].fillna(fill_value)`,
`clean1.py` line 115). -/
def fillNA (t : Table) (sel : List String) (v : String) : Table :=
  { t with rows := t.rows.map (fillRow sel v t.cols) }

/-- Kernel of `df.drop_duplicates(keep='first')` on label/row pairs: a row is
kept exactly when it is not value-equal to any earlier row; `seen` is the
list of all earlier rows.  Surviving rows keep their labels. -/
def ddAux : List (Nat × List Value) → List (List Value) → List (Nat × List Value)
  | [], _ => []
  | (l, r) :: rest, seen =>
      if r ∈ seen then ddAux rest (r :: seen)
      else (l, r) :: ddAux rest (r :: seen)

/-- `df.drop_duplicates(inplace=True)` (`clean1.py` line 98): drop every row
equal to an earlier row, keep the first occurrence, preserve order, and keep
the original index labels (pandas does not renumber). -/
def dropDuplicates (t : Table) : Table :=
  let kept := ddAux (t.index.zip t.rows) []
  { t with index := kept.map Prod.fst, rows := kept.map Prod.snd }

/-- Kernel of `df.duplicated().sum()`: count the rows equal to some earlier
row (`keep='first'` marks every occurrence after the first). -/
def dupCountAux : List (List Value) → List (List Value) → Nat
  | [], _ => 0
  | r :: rest, seen =>
      (if r ∈ seen then 1 else 0) + dupCountAux rest (r :: seen)

/-- `df.duplicated().sum()` (`clean1.py` line 95). -/
def duplicatedCount (t : Table) : Nat :=
  dupCountAux t.rows []

/-- The values of column position `j`, one per row (missing cells in ragged
rows read as `NaN`). -/
def colValues (t : Table) (j : Nat) : List Value :=
  t.rows.map (fun r => (r.get? j).getD Value.na)

/-- Whether a text cell would have been inferred as an integer by the CSV
reader. -/
def isIntText (v : Value) : Bool :=
  match v with
  | Value.na => false
  | Value.str s => s.toInt?.isSome

/-- The inferred dtype of a column, following pandas' inference on CSV input:
all-integer text without missing values is `int64`, integer text with missing
values is `float64` (pandas upcasts because `NaN` is a float), anything else
is `object`.  The claims depend only on the pairing and ordering of the
summary, not on this taxonomy. -/
def dtypeOf (col : List Value) : String :=
  if col.all isIntText then "int64"
  else if col.all (fun v => isIntText v || v == Value.na) then "float64"
  else "object"

/-- The `summary` function (`clean1.py` lines 8-12):
`pd.DataFrame(df.dtypes).reset_index()` is the ordered list of
(column name, inferred dtype) pairs. -/
def summary (t : Table) : List (String × String) :=
  (List.range t.cols.length).map
    (fun j => (t.cols.getD j "", dtypeOf (colValues t j)))

/-- The number of missing cells of column position `j`
(`df.isnull().sum()`, `clean1.py` line 110). -/
def missingCount (t : Table) (j : Nat) : Nat :=
  (colValues t j).countP (fun v => v == Value.na)

/-- `missing_summary[missing_summary > 0]` (`clean1.py` lines 110-111): the
per-column missing counts, restricted to the columns with at least one
missing value. -/
def missingSummary (t : Table) : List (String × Nat) :=
  ((List.range t.cols.length).map
    (fun j => (t.cols.getD j "", missingCount t j))).filter
      (fun p => 0 < p.2)

/-- The edit operations of the script (`clean1.py` lines 73-116). -/
inductive EditOp where
  | rename (names : List String) : EditOp
  | cellEdit (label : Nat) (col : String) (v : String) : EditOp
  | dropDups : EditOp
  | fill (sel : List String) (v : String) : EditOp

/-- Run one edit operation on the table.  `rename` is `df.columns = names`
(line 79), which raises a `ValueError` on a length mismatch;
`cellEdit` is lines 87-90; `dropDups` is line 98; `fill` is line 115. -/
def runEdit (t : Table) : EditOp → Except String Table
  | EditOp.rename ns =>
      if ns.length = t.cols.length then Except.ok { t with cols := ns }
      else Except.error "Length mismatch"
  | EditOp.cellEdit l c v => editCell t l c v
  | EditOp.dropDups => Except.ok (dropDuplicates t)
  | EditOp.fill s v => Except.ok (fillNA t s v)

/-- The effect of one edit attempt on the live table under the outermost
`try/except` (`clean1.py` lines 57, 167-168): a raised exception aborts the
rest of the run, the table reference is left exactly as it was before the
failed operation, and the handler only shows the message. -/
def commit (t : Table) (op : EditOp) : Table :=
  match runEdit t op with
  | Except.ok t' => t'
  | Except.error _ => t

/-- The double-quote character (the csv quotechar). -/
def dquote : Char := Char.ofNat 34

/-- Whether a csv field needs quoting under minimal quoting: it contains the
delimiter, the quotechar, or a line-break character. -/
def needsQuote (cs : List Char) : Bool :=
  cs.any (fun c => c = ',' || c = dquote || c = '\n' || c = '\r')

/-- Double every quotechar of a field body, as the csv writer does inside a
quoted field. -/
def doubleQuotes : List Char → List Char
  | [] => []
  | c :: rest =>
      if c = dquote then dquote :: dquote :: doubleQuotes rest
      else c :: doubleQuotes rest

/-- Write one csv field with minimal quoting. -/
def escapeField (cs : List Char) : List Char :=
  if needsQuote cs then dquote :: (doubleQuotes cs ++ [dquote]) else cs

/-- Join chunks with a separator character (`sep.join` semantics). -/
def joinSep (sep : Char) : List (List Char) → List Char
  | [] => []
  | [x] => x
  | x :: y :: xs => x ++ sep :: joinSep sep (y :: xs)

/-- Write one csv record: the escaped fields joined by commas. -/
def writeRecord (fields : List (List Char)) : List Char :=
  joinSep ',' (fields.map escapeField)

/-- `convert_df_to_csv` (`clean1.py` lines 15-16),
`df.to_csv(index=False).encode('utf-8')`: a header record with the column
names, then one record per row with the rendered cells, each record
terminated by a newline; no index column.  We model the UTF-8 byte string by
the `String` itself. -/
def convert_df_to_csv (t : Table) : String :=
  String.mk (((writeRecord (t.cols.map String.data)) ::
      t.rows.map (fun r => writeRecord (r.map (fun v => (renderCell v).data))))
    |>.foldr (fun line acc => line ++ '\n' :: acc) [])

/-- Split at every occurrence of `sep` lying outside quotes.  `inQ` is the
quote parity so far, `acc` the chunk being accumulated.  Doubled quotes
toggle the parity twice, so this correctly never splits inside a quoted
field. -/
def psplitAux (sep : Char) : List Char → Bool → List Char → List (List Char)
  | [], _, acc => [acc]
  | c :: rest, inQ, acc =>
      if c = sep && !inQ then acc :: psplitAux sep rest false []
      else psplitAux sep rest (if c = dquote then !inQ else inQ) (acc ++ [c])

/-- Split at separators outside quotes, starting outside a quote. -/
def psplit (sep : Char) (cs : List Char) : List (List Char) :=
  psplitAux sep cs false []

/-- Undo the quote doubling of a quoted field body. -/
def undoubleQuotes : List Char → List Char
  | [] => []
  | [c] => [c]
  | c :: d :: rest =>
      if c = dquote ∧ d = dquote then dquote :: undoubleQuotes rest
      else c :: undoubleQuotes (d :: rest)

/-- Read one csv field back: a field opening with the quotechar has the
closing quote stripped and its doubled quotes undone, any other field is
taken literally. -/
def unescapeField (cs : List Char) : List Char :=
  match cs with
  | [] => []
  | c :: rest =>
      if c = dquote then undoubleQuotes rest.dropLast else cs

/-- Read one csv data field as a cell value: with pandas' default NA
filtering an empty field (quoted or not) becomes `NaN`, everything else is
kept as text (numeric dtype inference is reflected only in `dtypeOf`). -/
def fieldValue (cs : List Char) : Value :=
  if cs = [] then Value.na else Value.str (String.mk cs)

/-- Split one record into its fields and read them back. -/
def parseRecord (cs : List Char) : List (List Char) :=
  (psplit ',' cs).map unescapeField

/-- `pd.read_csv` (`clean1.py` line 63) on the byte stream, modelled with
the reader's defaults: records are newline-separated outside quotes, blank
records are skipped (`skip_blank_lines=True`), the first record is the
header, every empty data field reads as `NaN`, and the fresh index is
`0, 1, ..., n-1`.  Numeric dtype inference is abstracted into `dtypeOf`
since the claims compare values modulo type-to-text formatting.  An input
with no nonblank record raises (`EmptyDataError`). -/
def parseCSV (s : String) : Option Table :=
  match (psplit '\n' s.data).filter (fun r => r ≠ []) with
  | [] => none
  | header :: rest =>
      some { cols := (parseRecord header).map String.mk
             index := List.range rest.length
             rows := rest.map (fun r => (parseRecord r).map fieldValue) }

/-- The session-state store (`st.session_state`) as the script uses it: the
only keys ever written are `last_uploaded_file` (line 60) and
`modified_columns` (lines 67, 80).  The DataFrame itself is never stored. -/
structure Session where
  last_uploaded_file : Option Nat := none
  modified_columns : Option (List String) := none
deriving DecidableEq, Repr

/-- One interaction: the widget state the script reads during a rerun.
`renames` holds the rename text boxes (`none` means every box still shows
its default, the current name); the edit selectors and value; and which of
the three buttons, if any, was clicked for this rerun. -/
structure Interaction where
  renames : Option (List String) := none
  editRow : Nat := 0
  editCol : String := ""
  editValue : String := ""
  updateClicked : Bool := false
  deleteDupClicked : Bool := false
  fillCols : List String := []
  fillValue : String := ""
  fillClicked : Bool := false
deriving Repr

/-- One full rerun of the script body (`clean1.py` lines 57-168) with a file
uploaded: reset the session on a new upload (lines 58-59), record the upload
(line 60), re-read the CSV into a fresh local `df` (line 63), seed
`modified_columns` (lines 66-67), apply the renames (lines 76-80), read the
selected cell (line 87) and overwrite it if Update was clicked (lines
89-90), drop duplicates if that button was clicked (lines 97-98), fill
missing values if that button was clicked (lines 114-115), and finally offer
the resulting `df` for download (line 165).  Returns the session state after
the run and `some df` on success; on an exception the outermost handler
(lines 167-168) shows the message and nothing is offered (`none`), with the
session keeping the keys written before the raise. -/
def runScript (sess : Session) (fid : Nat) (content : String)
    (i : Interaction) : Session × Option Table :=
  let sess0 := if sess.last_uploaded_file = some fid then sess else {}
  let sess1 := { sess0 with last_uploaded_file := some fid }
  match parseCSV content with
  | none => (sess1, none)
  | some df =>
    let mc := sess1.modified_columns.getD df.cols
    let names := i.renames.getD mc
    if names.length = df.cols.length then
      let df1 := { df with cols := names }
      let sess2 := { sess1 with modified_columns := some names }
      if df1.cols = [] then
        -- line 84: selectbox over no columns yields no selection and the
        -- whole edit block is skipped
        let df2 := if i.deleteDupClicked then dropDuplicates df1 else df1
        let df3 := if i.fillClicked then fillNA df2 i.fillCols i.fillValue
          else df2
        (sess2, some df3)
      else
        match atRead df1 i.editRow i.editCol with
        | Except.error _ => (sess2, none)
        | Except.ok _ =>
          let df2 := if i.updateClicked then
              match editCell df1 i.editRow i.editCol i.editValue with
              | Except.ok t' => t'
              | Except.error _ => df1
            else df1
          let df3 := if i.deleteDupClicked then dropDuplicates df2 else df2
          let df4 := if i.fillClicked then fillNA df3 i.fillCols i.fillValue
            else df3
          (sess2, some df4)
    else ({ sess1 with modified_columns := some mc }, none)

/-- Quote-aware scan: `true` when scanning the chunk from quote parity `inQ`
never meets `sep` at parity outside quotes, so that `psplitAux` passes
through the chunk without splitting. -/
def scanSafe (sep : Char) : List Char → Bool → Bool
  | [], _ => true
  | c :: rest, inQ =>
      if c = sep && !inQ then false
      else scanSafe sep rest (if c = dquote then !inQ else inQ)

/-- The quote parity after scanning a chunk from parity `b`. -/
def parityAfter : List Char → Bool → Bool
  | [], b => b
  | c :: rest, b => parityAfter rest (if c = dquote then !b else b)

/-- The duplicate-row count as the claim words it: the number of rows fully
equal to ANOTHER row across all columns (every member of an equivalence
class of equal rows counts, first occurrences included).  Stated from the
claim's words, to be compared against the code's `duplicatedCount`. -/
def specDuplicateRowCount (t : Table) : Nat :=
  (List.range t.rows.length).countP (fun i =>
    (List.range t.rows.length).any (fun j =>
      decide (j ≠ i) && decide (t.rows.getD j [] = t.rows.getD i [])))

/-- A two-row table whose rows are equal: `df.duplicated().sum()` reports 1
(the second occurrence), while the rows fully equal to another row are both
of them. -/
def tblC8 : Table :=
  { cols := ["a"], index := [0, 1], rows := [[Value.str "x"], [Value.str "x"]] }

/-- A one-column uploaded table whose only cell is missing: its CSV export is
a blank data line, which the reader skips. -/
def tblC7 : Table :=
  { cols := ["a"], index := [0], rows := [[Value.na]] }

/-- A table with one duplicated row, for the index-label claims. -/
def tblC10 : Table :=
  { cols := ["a"], index := [0, 1, 2]
    rows := [[Value.str "1"], [Value.str "1"], [Value.str "2"]] }

/-- The upload used to exhibit the lost edit: one column `a`, one row `1`. -/
def c1content : String := "a\n1\n"

/-- The interaction that edits cell (0, `a`) to `2` and clicks Update. -/
def c1edit : Interaction :=
  { editRow := 0, editCol := "a", editValue := "2", updateClicked := true }

/-- A subsequent interaction that presses no button (any rerun: a widget
touch, a chart choice, the download). -/
def c1idle : Interaction := { editRow := 0, editCol := "a" }

theorem indexOf_range {n i : Nat} (h : i < n) : List.indexOf i (List.range n) = i := by
  have h2 : i < (List.range n).length := by simpa
  have h3 := List.indexOf_getElem (List.nodup_range n) i h2
  simpa using h3

theorem fillRow_nil_sel (v : String) :
    ∀ (cols : List String) (r : List Value), fillRow [] v cols r = r := by
  intro cols r
  induction r generalizing cols with
  | nil => cases cols <;> simp [fillRow]
  | cons x xs ih => cases cols <;> simp [fillRow, ih]

theorem fillRow_get? (sel : List String) (v : String) :
    ∀ (cols : List String) (r : List Value) (j : Nat),
    (fillRow sel v cols r).get? j =
      (r.get? j).map (fun x =>
        match cols.get? j with
        | some c => if c ∈ sel ∧ x = Value.na then Value.str v else x
        | none => x) := by
  intro cols r
  induction r generalizing cols with
  | nil => intro j; cases cols <;> simp [fillRow]
  | cons x xs ih =>
      intro j
      cases cols with
      | nil =>
          cases j with
          | zero => simp [fillRow]
          | succ j => simp [fillRow]
      | cons c cs =>
          cases j with
          | zero => simp [fillRow]
          | succ j => simpa [fillRow] using ih cs j

theorem ddAux_sublist : ∀ (zs : List (Nat × List Value)) (seen : List (List Value)),
    (ddAux zs seen).Sublist zs := by
  intro zs
  induction zs with
  | nil => intro seen; simp [ddAux]
  | cons p rest ih =>
      intro seen
      obtain ⟨l, r⟩ := p
      by_cases h : r ∈ seen
      · simpa [ddAux, h] using (ih (r :: seen)).cons (l, r)
      · simpa [ddAux, h] using (ih (r :: seen)).cons₂ (l, r)

theorem ddAux_mem_iff :
    ∀ (zs : List (Nat × List Value)) (seen : List (List Value)) (i : Nat)
      (h : i < zs.length), (zs.map Prod.fst).Nodup →
    (zs.get ⟨i, h⟩ ∈ ddAux zs seen ↔
      (zs.get ⟨i, h⟩).2 ∉ seen ∧
        (zs.get ⟨i, h⟩).2 ∉ (zs.take i).map Prod.snd) := by
  intro zs
  induction zs with
  | nil => intro seen i h; simp at h
  | cons p rest ih =>
      intro seen i h hnd
      obtain ⟨l, r⟩ := p
      have hl : l ∉ rest.map Prod.fst := by simpa using (List.nodup_cons.mp hnd).1
      have hnd' : (rest.map Prod.fst).Nodup := by simpa using (List.nodup_cons.mp hnd).2
      cases i with
      | zero =>
          by_cases hr : r ∈ seen
          · have hnotin : (l, r) ∉ ddAux rest (r :: seen) := by
              intro hmem
              exact hl (List.mem_map_of_mem Prod.fst ((ddAux_sublist rest (r :: seen)).subset hmem))
            simp [ddAux, hr, hnotin]
          · simp [ddAux, hr]
      | succ i =>
          have hi : i < rest.length := by simpa using h
          have hx : (rest.get ⟨i, hi⟩) ∈ rest := List.get_mem ..
          have hxl : (rest.get ⟨i, hi⟩).1 ≠ l := by
            intro heq
            exact hl (heq ▸ List.mem_map_of_mem Prod.fst hx)
          by_cases hr : r ∈ seen
          · have := ih (r :: seen) i hi hnd'
            simp only [ddAux, if_pos hr]
            simp only [List.get_cons_succ] at this ⊢
            rw [this]
            simp only [List.take_succ_cons, List.map_cons, List.mem_cons]
            constructor
            · rintro ⟨h1, h2⟩
              refine ⟨fun hs => h1 (Or.inr hs), fun hs => ?_⟩
              rcases hs with hs | hs
              · exact h1 (Or.inl hs)
              · exact h2 hs
            · rintro ⟨h1, h2⟩
              refine ⟨fun hs => ?_, fun hs => h2 (Or.inr hs)⟩
              rcases hs with hs | hs
              · exact h2 (Or.inl hs)
              · exact h1 hs
          · have := ih (r :: seen) i hi hnd'
            simp only [ddAux, if_neg hr]
            simp only [List.get_cons_succ] at this ⊢
            have hne : rest.get ⟨i, hi⟩ ≠ (l, r) := by
              intro heq
              exact hxl (by rw [heq])
            rw [List.mem_cons]
            rw [or_iff_right hne, this]
            simp only [List.take_succ_cons, List.map_cons, List.mem_cons]
            constructor
            · rintro ⟨h1, h2⟩
              refine ⟨fun hs => h1 (Or.inr hs), fun hs => ?_⟩
              rcases hs with hs | hs
              · exact h1 (Or.inl hs)
              · exact h2 hs
            · rintro ⟨h1, h2⟩
              refine ⟨fun hs => ?_, fun hs => h2 (Or.inr hs)⟩
              rcases hs with hs | hs
              · exact h2 (Or.inl hs)
              · exact h1 hs

theorem ddAux_eq_of_count_zero :
    ∀ (zs : List (Nat × List Value)) (seen : List (List Value)),
    dupCountAux (zs.map Prod.snd) seen = 0 → ddAux zs seen = zs := by
  intro zs
  induction zs with
  | nil => intro seen _; simp [ddAux]
  | cons p rest ih =>
      intro seen h
      obtain ⟨l, r⟩ := p
      simp only [List.map_cons, dupCountAux] at h
      by_cases hr : r ∈ seen
      · simp [hr] at h
      · simp only [if_neg hr, Nat.zero_add] at h
        simp [ddAux, hr, ih (r :: seen) h]

theorem ddAux_length_drop :
    ∀ (zs : List (Nat × List Value)) (seen : List (List Value)),
    zs.length - (ddAux zs seen).length = dupCountAux (zs.map Prod.snd) seen := by
  intro zs
  induction zs with
  | nil => intro seen; simp [ddAux, dupCountAux]
  | cons p rest ih =>
      intro seen
      obtain ⟨l, r⟩ := p
      have hle : (ddAux rest (r :: seen)).length ≤ rest.length :=
        (ddAux_sublist rest (r :: seen)).length_le
      by_cases hr : r ∈ seen
      · simp only [ddAux, if_pos hr, List.length_cons, List.map_cons, dupCountAux,
          ← ih (r :: seen)]
        omega
      · simp only [ddAux, if_neg hr, List.length_cons, List.map_cons, dupCountAux,
          ← ih (r :: seen)]
        omega

theorem zip_map_fst_snd_eq :
    ∀ (l : List (Nat × List Value)), (l.map Prod.fst).zip (l.map Prod.snd) = l := by
  intro l
  induction l with
  | nil => rfl
  | cons p rest ih => simp [ih]

theorem map_fst_zip_sublist :
    ∀ (a : List Nat) (b : List (List Value)), ((a.zip b).map Prod.fst).Sublist a := by
  intro a
  induction a with
  | nil => intro b; simp
  | cons x xs ih =>
      intro b
      cases b with
      | nil => simp
      | cons y ys => simpa using (ih ys).cons₂ x

theorem map_snd_zip_take :
    ∀ (a : List Nat) (b : List (List Value)) (i : Nat), a.length = b.length →
    (((a.zip b).take i).map Prod.snd) = b.take i := by
  intro a
  induction a with
  | nil =>
      intro b i h
      cases b with
      | nil => simp
      | cons y ys => simp at h
  | cons x xs ih =>
      intro b i h
      cases b with
      | nil => simp at h
      | cons y ys =>
          cases i with
          | zero => simp
          | succ i =>
              simp only [List.zip_cons_cons, List.take_succ_cons, List.map_cons]
              rw [ih ys i (by simpa using h)]

theorem dupCountAux_eq_countP :
    ∀ (rs seen : List (List Value)),
    dupCountAux rs seen = (List.range rs.length).countP
      (fun i => decide (rs.getD i [] ∈ seen ∨ rs.getD i [] ∈ rs.take i)) := by
  intro rs
  induction rs with
  | nil => intro seen; simp [dupCountAux]
  | cons r rest ih =>
      intro seen
      rw [List.length_cons, List.range_succ_eq_map, List.countP_cons, List.countP_map]
      have h0 : (decide ((r :: rest).getD 0 [] ∈ seen ∨
          (r :: rest).getD 0 [] ∈ (r :: rest).take 0)) = decide (r ∈ seen) := by
        simp
      have hcongr : (List.range rest.length).countP
            ((fun i => decide ((r :: rest).getD i [] ∈ seen ∨
              (r :: rest).getD i [] ∈ (r :: rest).take i)) ∘ Nat.succ) =
          (List.range rest.length).countP
            (fun i => decide (rest.getD i [] ∈ (r :: seen) ∨
              rest.getD i [] ∈ rest.take i)) := by
        apply List.countP_congr
        intro i _
        simp only [Function.comp]
        rw [decide_eq_true_eq, decide_eq_true_eq]
        have hgd : (r :: rest).getD (i + 1) [] = rest.getD i [] := rfl
        rw [hgd, List.take_succ_cons, List.mem_cons, List.mem_cons]
        tauto
      rw [hcongr, h0, dupCountAux, ih (r :: seen)]
      by_cases hr : r ∈ seen <;> simp [hr] <;> omega

/-- C5: the missing-value fill overwrites exactly the missing cells of the
selected columns with the literal as text, leaves every other cell (cells of
unselected columns and already-populated cells) unchanged, and is the
identity when the selected set is empty; column names, index and row count
are untouched. -/
theorem fillNA_fills_exactly_selected_missing (t : Table) (sel : List String)
    (v : String) :
    (fillNA t sel v).cols = t.cols ∧
    (fillNA t sel v).index = t.index ∧
    (fillNA t sel v).rows.length = t.rows.length ∧
    (∀ i j, cellAt (fillNA t sel v) i j = (cellAt t i j).map (fun x =>
      match t.cols.get? j with
      | some c => if c ∈ sel ∧ x = Value.na then Value.str v else x
      | none => x)) ∧
    (sel = [] → fillNA t sel v = t) := by
  refine ⟨rfl, rfl, by simp [fillNA], ?_, ?_⟩
  · intro i j
    simp only [cellAt, fillNA]
    rw [List.get?_map]
    cases h : t.rows.get? i with
    | none => rfl
    | some r =>
        simp only [Option.map_some', Option.some_bind]
        exact fillRow_get? sel v t.cols r j
  · intro hsel
    subst hsel
    have heq : fillRow [] v t.cols = fun r => r :=
      funext (fun r => fillRow_nil_sel v t.cols r)
    show { t with rows := t.rows.map (fillRow [] v t.cols) } = t
    rw [heq, List.map_id']

/-- C9: the duplicate count shown to the user equals the number of rows that
Delete Duplicates removes, because both use the keep-first convention. -/
theorem duplicate_count_eq_rows_removed (t : Table)
    (hlen : t.index.length = t.rows.length) :
    t.rows.length - (dropDuplicates t).rows.length = duplicatedCount t := by
  have hzs : (t.index.zip t.rows).length = t.rows.length := by simp [hlen]
  have hsnd : (t.index.zip t.rows).map Prod.snd = t.rows :=
    List.map_snd_zip _ _ (le_of_eq hlen.symm)
  have h := ddAux_length_drop (t.index.zip t.rows) []
  rw [hzs, hsnd] at h
  have hr : (dropDuplicates t).rows.length =
      (ddAux (t.index.zip t.rows) []).length := by
    simp [dropDuplicates]
  rw [hr]
  exact h

/-- Witness for C9: on a table with one duplicated row the count is 1 and one
row is removed. -/
theorem duplicate_count_eq_rows_removed_witness :
    ({ cols := ["a"], index := [0, 1, 2], rows := [[Value.str "1"], [Value.str "1"], [Value.str "2"]] } : Table).index.length = 3 ∧
      ({ cols := ["a"], index := [0, 1, 2], rows := [[Value.str "1"], [Value.str "1"], [Value.str "2"]] } : Table).rows.length -
        (dropDuplicates { cols := ["a"], index := [0, 1, 2], rows := [[Value.str "1"], [Value.str "1"], [Value.str "2"]] }).rows.length =
        duplicatedCount { cols := ["a"], index := [0, 1, 2], rows := [[Value.str "1"], [Value.str "1"], [Value.str "2"]] } :=
  ⟨rfl, duplicate_count_eq_rows_removed _ (by decide)⟩

/-- C6: Delete Duplicates removes exactly the rows value-equal to an earlier
row (the first-seen row of each class is kept, shown by the positional
characterisation), preserves the relative order of the surviving label/row
pairs (sublist), keeps the column names, and is the identity when the
reported duplicate count is zero. -/
theorem drop_duplicates_keeps_first_occurrences (t : Table)
    (hlen : t.index.length = t.rows.length) (hnd : t.index.Nodup) :
    ((dropDuplicates t).index.zip (dropDuplicates t).rows).Sublist
        (t.index.zip t.rows) ∧
    (dropDuplicates t).cols = t.cols ∧
    (∀ i (hi : i < t.rows.length),
      ((t.index.get ⟨i, by omega⟩, t.rows.get ⟨i, hi⟩) ∈
          (dropDuplicates t).index.zip (dropDuplicates t).rows ↔
        t.rows.get ⟨i, hi⟩ ∉ t.rows.take i)) ∧
    (duplicatedCount t = 0 → dropDuplicates t = t) := by
  have hddzip : (dropDuplicates t).index.zip (dropDuplicates t).rows =
      ddAux (t.index.zip t.rows) [] := by
    simp only [dropDuplicates]
    exact zip_map_fst_snd_eq _
  have hfst : (t.index.zip t.rows).map Prod.fst = t.index :=
    List.map_fst_zip _ _ (le_of_eq hlen)
  have hsnd : (t.index.zip t.rows).map Prod.snd = t.rows :=
    List.map_snd_zip _ _ (le_of_eq hlen.symm)
  refine ⟨?_, rfl, ?_, ?_⟩
  · rw [hddzip]
    exact ddAux_sublist _ _
  · intro i hi
    have hi' : i < (t.index.zip t.rows).length := by
      rw [List.length_zip]
      omega
    have hi2 : i < t.index.length := by omega
    have hget : (t.index.zip t.rows).get ⟨i, hi'⟩ =
        (t.index.get ⟨i, hi2⟩, t.rows.get ⟨i, hi⟩) := List.get_zip ..
    have hnd2 : ((t.index.zip t.rows).map Prod.fst).Nodup := by
      rw [hfst]; exact hnd
    have hmem := ddAux_mem_iff (t.index.zip t.rows) [] i hi' hnd2
    rw [hddzip, ← hget]
    rw [hmem, hget]
    have htake : ((t.index.zip t.rows).take i).map Prod.snd = t.rows.take i :=
      map_snd_zip_take _ _ _ hlen
    rw [htake]
    simp
  · intro hdc
    have hzero : dupCountAux ((t.index.zip t.rows).map Prod.snd) [] = 0 := by
      rw [hsnd]; exact hdc
    have hall : ddAux (t.index.zip t.rows) [] = t.index.zip t.rows :=
      ddAux_eq_of_count_zero _ _ hzero
    show ({ t with index := (ddAux (t.index.zip t.rows) []).map Prod.fst, rows := (ddAux (t.index.zip t.rows) []).map Prod.snd } : Table) = t
    rw [hall, hfst, hsnd]

/-- Witness for C6 at the scenario table of spec §8: rows
`[("a",1),("b",null),("a",1)]`. -/
theorem drop_duplicates_keeps_first_occurrences_witness :
    ({ cols := ["name", "count"], index := [0, 1, 2], rows := [[Value.str "a", Value.str "1"], [Value.str "b", Value.na], [Value.str "a", Value.str "1"]] } : Table).index.length = 3 ∧
    (dropDuplicates { cols := ["name", "count"], index := [0, 1, 2], rows := [[Value.str "a", Value.str "1"], [Value.str "b", Value.na], [Value.str "a", Value.str "1"]] }).cols = ["name", "count"] := by
  have h6 := drop_duplicates_keeps_first_occurrences
    { cols := ["name", "count"], index := [0, 1, 2],
      rows := [[Value.str "a", Value.str "1"], [Value.str "b", Value.na],
        [Value.str "a", Value.str "1"]] } (by decide) (by decide)
  exact ⟨rfl, h6.2.1⟩

/-- C10: duplicate removal keeps the original index labels (the surviving
label list is a sublist of the old one, never a renumbering), so on the
concrete three-row table with one duplicate the surviving labels are
`[0, 2]`, the row-selector range `range(len(df))` still offers `1`, `1` is
no longer a label, and `df.at[1, "a"]` raises `KeyError` instead of reading
the row at position 1. -/
theorem drop_duplicates_keeps_labels_and_at_fails :
    (∀ t : Table, (dropDuplicates t).index.Sublist t.index) ∧
    (dropDuplicates tblC10).index = [0, 2] ∧
    (dropDuplicates tblC10).rows.length = 2 ∧
    1 ∈ List.range (dropDuplicates tblC10).rows.length ∧
    1 ∉ (dropDuplicates tblC10).index ∧
    atRead (dropDuplicates tblC10) 1 "a" = Except.error "KeyError" := by
  refine ⟨?_, by decide, by decide, by decide, by decide, by rfl⟩
  intro t
  have h1 : (dropDuplicates t).index =
      (ddAux (t.index.zip t.rows) []).map Prod.fst := rfl
  rw [h1]
  exact ((ddAux_sublist _ _).map Prod.fst).trans (map_fst_zip_sublist _ _)

theorem map_getD_range (l : List String) :
    (List.range l.length).map (fun j => l.getD j "") = l := by
  induction l with
  | nil => simp
  | cons c cs ih =>
      rw [List.length_cons, List.range_succ_eq_map, List.map_cons, List.map_map]
      exact congrArg (List.cons c) ih

/-- C8 (amended): the summary pairs the column names with their inferred
types in column order; the displayed duplicate-row count counts exactly the
rows fully equal to an EARLIER row (first occurrences are not counted); the
missing-value report contains a pair `(c, k)` exactly for the columns with
`k > 0` missing cells.  All three are pure functions of the table. -/
theorem summary_and_counts_characterization (t : Table) :
    (summary t).map Prod.fst = t.cols ∧
    duplicatedCount t = (List.range t.rows.length).countP
      (fun i => decide (t.rows.getD i [] ∈ t.rows.take i)) ∧
    (∀ c k, (c, k) ∈ missingSummary t ↔
      ∃ j, j < t.cols.length ∧ t.cols.getD j "" = c ∧
        missingCount t j = k ∧ 0 < k) := by
  refine ⟨?_, ?_, ?_⟩
  · rw [summary, List.map_map]
    exact map_getD_range t.cols
  · rw [duplicatedCount, dupCountAux_eq_countP]
    apply List.countP_congr
    intro i _
    simp
  · intro c k
    simp only [missingSummary, List.mem_filter, List.mem_map, List.mem_range]
    constructor
    · rintro ⟨⟨j, hj, heq⟩, hk⟩
      rcases heq
      exact ⟨j, hj, rfl, rfl, by simpa using hk⟩
    · rintro ⟨j, hj, hc, hk, hpos⟩
      exact ⟨⟨j, hj, by rw [hc, hk]⟩, by simpa using hpos⟩

/-- Counterexample to C8 as stated: on a table of two equal rows the code's
count (`df.duplicated().sum()`, equal-to-an-earlier-row) is 1, while the
number of rows fully equal to another row is 2. -/
theorem duplicate_count_not_another_row_count :
    duplicatedCount tblC8 = 1 ∧ specDuplicateRowCount tblC8 = 2 ∧
      duplicatedCount tblC8 ≠ specDuplicateRowCount tblC8 := by
  refine ⟨by rfl, by rfl, by decide⟩

/-- C2: a cell edit whose selected row index is outside `[0, rowCount)` or
whose column name is not in the table fails with the `KeyError` the outer
handler shows as a generic error; it never succeeds, and in particular the
committed table is exactly the old one — no row or column is added.  The
row-label hypothesis is the fresh-upload index `0, ..., n-1` that
`pd.read_csv` produces. -/
theorem cell_edit_invalid_selection_fails (t : Table) (label : Nat)
    (col : String) (v : String)
    (hidx : t.index = List.range t.rows.length)
    (hbad : t.rows.length ≤ label ∨ col ∉ t.cols) :
    (∃ e, runEdit t (EditOp.cellEdit label col v) = Except.error e) ∧
    commit t (EditOp.cellEdit label col v) = t := by
  have hcond : ¬(label ∈ t.index ∧ col ∈ t.cols) := by
    rw [hidx]
    rintro ⟨h1, h2⟩
    rw [List.mem_range] at h1
    rcases hbad with hb | hb
    · omega
    · exact hb h2
  have herr : runEdit t (EditOp.cellEdit label col v) = Except.error "KeyError" := by
    simp only [runEdit, editCell, atRead, if_neg hcond]
  refine ⟨⟨"KeyError", herr⟩, ?_⟩
  simp only [commit, herr]

/-- Witness for C2: editing row 5 of a one-row table fails and leaves the
table unchanged. -/
theorem cell_edit_invalid_selection_fails_witness :
    ({ cols := ["a"], index := [0], rows := [[Value.str "1"]] } : Table).index =
      List.range 1 ∧
    (∃ e, runEdit { cols := ["a"], index := [0], rows := [[Value.str "1"]] }
        (EditOp.cellEdit 5 "a" "9") = Except.error e) ∧
    commit { cols := ["a"], index := [0], rows := [[Value.str "1"]] }
        (EditOp.cellEdit 5 "a" "9") =
      { cols := ["a"], index := [0], rows := [[Value.str "1"]] } := by
  refine ⟨by decide, ?_⟩
  exact cell_edit_invalid_selection_fails _ 5 "a" "9" (by decide) (by decide)

/-- C3: a failing edit operation aborts only itself: the committed table is
exactly the prior table, and the session stays usable — any later operation
behaves as if the failed one had never been attempted. -/
theorem edit_failure_atomic (t : Table) (op : EditOp) (e : String)
    (h : runEdit t op = Except.error e) :
    commit t op = t ∧
      (∀ op2 : EditOp, commit (commit t op) op2 = commit t op2) := by
  have h1 : commit t op = t := by simp only [commit, h]
  exact ⟨h1, fun op2 => by rw [h1]⟩

/-- Witness for C3: the out-of-range edit of the C2 witness is atomic. -/
theorem edit_failure_atomic_witness :
    runEdit { cols := ["a"], index := [0], rows := [[Value.str "1"]] }
        (EditOp.cellEdit 5 "a" "9") = Except.error "KeyError" ∧
    commit { cols := ["a"], index := [0], rows := [[Value.str "1"]] }
        (EditOp.cellEdit 5 "a" "9") =
      { cols := ["a"], index := [0], rows := [[Value.str "1"]] } := by
  refine ⟨by rfl, ?_⟩
  exact (edit_failure_atomic _ _ "KeyError" (by rfl)).1

/-- C4: a cell edit with a valid row index and an existing column name
succeeds and yields a table where exactly that cell holds the new value as
text, while every other cell, the column names, the index labels and the row
count are unchanged.  The column is addressed by its (unique, by `Nodup`)
position `t.cols.indexOf c`; the index hypothesis is the fresh-upload
labelling `0, ..., n-1`. -/
theorem cell_edit_updates_exactly_one_cell (t : Table) (r : Nat) (c : String)
    (v : String)
    (hidx : t.index = List.range t.rows.length)
    (hr : r < t.rows.length)
    (hc : c ∈ t.cols)
    (hnd : t.cols.Nodup)
    (hrect : ∀ row ∈ t.rows, row.length = t.cols.length) :
    ∃ t', runEdit t (EditOp.cellEdit r c v) = Except.ok t' ∧
      t'.cols = t.cols ∧ t'.index = t.index ∧
      t'.rows.length = t.rows.length ∧
      cellAt t' r (t.cols.indexOf c) = some (Value.str v) ∧
      (∀ i j, ¬(i = r ∧ j = t.cols.indexOf c) → cellAt t' i j = cellAt t i j) := by
  have hmem : r ∈ t.index := by
    rw [hidx]
    exact List.mem_range.mpr hr
  have hcond : r ∈ t.index ∧ c ∈ t.cols := ⟨hmem, hc⟩
  have hio : t.index.indexOf r = r := by
    rw [hidx]
    exact indexOf_range hr
  have hok : runEdit t (EditOp.cellEdit r c v) = Except.ok
      { t with rows := setCellRows t.rows r (t.cols.indexOf c) (Value.str v) } := by
    simp only [runEdit, editCell, atRead, if_pos hcond, hio]
  obtain ⟨row, hrow⟩ : ∃ row, t.rows.get? r = some row :=
    ⟨t.rows.get ⟨r, hr⟩, List.get?_eq_get hr⟩
  have hrowmem : row ∈ t.rows := List.get?_mem hrow
  have hrowlen : row.length = t.cols.length := hrect row hrowmem
  have hj0 : t.cols.indexOf c < row.length := by
    rw [hrowlen]
    exact List.indexOf_lt_length.mpr hc
  have hset_get_r :
      (setCellRows t.rows r (t.cols.indexOf c) (Value.str v)).get? r =
        some (row.set (t.cols.indexOf c) (Value.str v)) := by
    rw [setCellRows, hrow, List.get?_eq_getElem?]
    simp only [Option.getD_some]
    exact List.getElem?_set_eq_of_lt _ hr
  refine ⟨_, hok, rfl, rfl, List.length_set .., ?_, ?_⟩
  · show ((setCellRows t.rows r (t.cols.indexOf c) (Value.str v)).get?
        r).bind (fun row2 => row2.get? (t.cols.indexOf c)) = some (Value.str v)
    rw [hset_get_r]
    simp only [Option.some_bind]
    rw [List.get?_eq_getElem?]
    exact List.getElem?_set_eq_of_lt _ hj0
  · intro i j hij
    by_cases hi : i = r
    · subst hi
      have hj : j ≠ t.cols.indexOf c := fun hj => hij ⟨rfl, hj⟩
      show ((setCellRows t.rows i (t.cols.indexOf c) (Value.str v)).get?
          i).bind (fun row2 => row2.get? j) = cellAt t i j
      rw [hset_get_r, cellAt, hrow]
      simp only [Option.some_bind]
      rw [List.get?_eq_getElem?, List.get?_eq_getElem?]
      exact List.getElem?_set_ne (fun h => hj h.symm)
    · show ((setCellRows t.rows r (t.cols.indexOf c) (Value.str v)).get?
          i).bind (fun row2 => row2.get? j) = cellAt t i j
      rw [setCellRows, List.get?_eq_getElem?,
        List.getElem?_set_ne (fun h => hi h.symm), cellAt, List.get?_eq_getElem?]

/-- Witness for C4: editing cell (0, `b`) of a 1-by-2 table to `9`. -/
theorem cell_edit_updates_exactly_one_cell_witness :
    ∃ t', runEdit { cols := ["a", "b"], index := [0], rows := [[Value.str "1", Value.str "2"]] }
        (EditOp.cellEdit 0 "b" "9") = Except.ok t' ∧
      t'.cols = ["a", "b"] ∧ t'.index = [0] ∧
      t'.rows.length = 1 ∧
      cellAt t' 0 (List.indexOf "b" ["a", "b"]) = some (Value.str "9") ∧
      (∀ i j, ¬(i = 0 ∧ j = List.indexOf "b" ["a", "b"]) →
        cellAt t' i j =
          cellAt { cols := ["a", "b"], index := [0], rows := [[Value.str "1", Value.str "2"]] } i j) := by
  exact cell_edit_updates_exactly_one_cell
    { cols := ["a", "b"], index := [0], rows := [[Value.str "1", Value.str "2"]] }
    0 "b" "9" (by decide) (by decide) (by decide) (by decide)
    (by intro row h; simp at h; simp [h])

/-- C1 (code behaviour at the failing input): the script never stores the
DataFrame in the session store (a `Session` holds only `last_uploaded_file`
and `modified_columns`, the only keys `clean1.py` ever writes).  Uploading
`a\n1\n` and clicking Update Value renders the edited table (`a = 2`) for
that run, but the very next interaction re-reads the CSV into a fresh `df`,
so it observes the original upload (`a = 1`): the committed cell edit is
lost, contradicting the claim that every subsequent interaction observes
all previously committed edits. -/
theorem clean1_cell_edit_lost_on_rerun :
    (runScript {} 0 c1content c1edit).2 =
      some { cols := ["a"], index := [0], rows := [[Value.str "2"]] } ∧
    (runScript (runScript {} 0 c1content c1edit).1 0 c1content c1idle).2 =
      some { cols := ["a"], index := [0], rows := [[Value.str "1"]] } ∧
    (runScript (runScript {} 0 c1content c1edit).1 0 c1content c1idle).2 =
      parseCSV c1content ∧
    (runScript (runScript {} 0 c1content c1edit).1 0 c1content c1idle).2 ≠
      (runScript {} 0 c1content c1edit).2 := by
  refine ⟨by rfl, by rfl, by rfl, by decide⟩

theorem mk_data (s : String) : String.mk s.data = s := by
  cases s
  rfl

theorem undouble_double : ∀ (f : List Char),
    undoubleQuotes (doubleQuotes f) = f := by
  intro f
  induction f with
  | nil => rfl
  | cons c rest ih =>
      by_cases hc : c = dquote
      · subst hc
        simp only [doubleQuotes, if_pos rfl]
        simp [undoubleQuotes, ih]
      · simp only [doubleQuotes, if_neg hc]
        cases hd : doubleQuotes rest with
        | nil =>
            have hrest : rest = [] := by
              cases rest with
              | nil => rfl
              | cons d r2 =>
                  by_cases hdq : d = dquote <;> simp [doubleQuotes, hdq] at hd
            subst hrest
            simp [undoubleQuotes]
        | cons d rest2 =>
            rw [hd] at ih
            simp only [undoubleQuotes]
            rw [if_neg (fun h => hc h.1), ih]

theorem unescape_escape (f : List Char) :
    unescapeField (escapeField f) = f := by
  by_cases hq : needsQuote f
  · simp only [escapeField, if_pos hq, unescapeField]
    rw [List.dropLast_concat, undouble_double]
    simp
  · simp only [escapeField, if_neg hq]
    cases f with
    | nil => rfl
    | cons c rest =>
        have hc : c ≠ dquote := by
          intro hcq
          apply hq
          simp [needsQuote, hcq]
        simp only [unescapeField, if_neg hc]

theorem parityAfter_append (a b : List Char) (q : Bool) :
    parityAfter (a ++ b) q = parityAfter b (parityAfter a q) := by
  induction a generalizing q with
  | nil => rfl
  | cons c rest ih =>
      simp only [List.cons_append, parityAfter]
      exact ih _

theorem scanSafe_append (sep : Char) (a b : List Char) (q : Bool) :
    scanSafe sep (a ++ b) q =
      (scanSafe sep a q && scanSafe sep b (parityAfter a q)) := by
  induction a generalizing q with
  | nil => rfl
  | cons c rest ih =>
      simp only [List.cons_append, scanSafe, parityAfter]
      by_cases h : (c = sep && !q) = true
      · simp [h]
      · simp only [if_neg h]
        exact ih _

theorem psplitAux_consume (sep : Char) :
    ∀ (w rest : List Char) (inQ : Bool) (acc : List Char),
    scanSafe sep w inQ = true →
    psplitAux sep (w ++ rest) inQ acc =
      psplitAux sep rest (parityAfter w inQ) (acc ++ w) := by
  intro w
  induction w with
  | nil => intro rest inQ acc _; simp [parityAfter]
  | cons c w2 ih =>
      intro rest inQ acc hsafe
      simp only [scanSafe] at hsafe
      by_cases h : (c = sep && !inQ) = true
      · simp [h] at hsafe
      · simp only [if_neg h] at hsafe
        simp only [List.cons_append, psplitAux, if_neg h, parityAfter]
        rw [List.append_cons acc c w2]
        exact ih rest _ (acc ++ [c]) hsafe

theorem scanSafe_no_special (sep : Char) :
    ∀ (f : List Char), (∀ c ∈ f, c ≠ sep ∧ c ≠ dquote) →
    scanSafe sep f false = true ∧ parityAfter f false = false := by
  intro f
  induction f with
  | nil => intro _; exact ⟨rfl, rfl⟩
  | cons c rest ih =>
      intro h
      have hc := h c (List.mem_cons_self ..)
      have hrest := ih (fun x hx => h x (List.mem_cons_of_mem _ hx))
      simp only [scanSafe, parityAfter]
      simp [hc.1, hc.2]
      exact hrest

theorem doubleQuotes_safe (sep : Char) (hsep : sep ≠ dquote) :
    ∀ (f : List Char),
    scanSafe sep (doubleQuotes f) true = true ∧
      parityAfter (doubleQuotes f) true = true := by
  intro f
  induction f with
  | nil => exact ⟨rfl, rfl⟩
  | cons c rest ih =>
      by_cases hc : c = dquote
      · subst hc
        have hs : dquote ≠ sep := fun h => hsep h.symm
        simp only [doubleQuotes, if_pos rfl, scanSafe, parityAfter]
        simp [hs]
        exact ih
      · simp only [doubleQuotes, if_neg hc, scanSafe, parityAfter]
        simp [hc]
        exact ih

theorem escapeField_safe (sep : Char) (hsep : sep = ',' ∨ sep = '\n')
    (f : List Char) :
    scanSafe sep (escapeField f) false = true ∧
      parityAfter (escapeField f) false = false := by
  have hsd : sep ≠ dquote := by
    rcases hsep with h | h <;> subst h <;> decide
  by_cases hq : needsQuote f
  · simp only [escapeField, if_pos hq]
    have hds := doubleQuotes_safe sep hsd f
    have hs1 : dquote ≠ sep := fun h => hsd h.symm
    constructor
    · simp only [scanSafe]
      simp only [hs1]
      rw [scanSafe_append]
      simp [hds.1, hds.2, scanSafe, hs1]
    · simp only [parityAfter]
      simp [parityAfter_append, hds.2, parityAfter]
  · simp only [escapeField, if_neg hq]
    apply scanSafe_no_special
    intro c hc
    have : ¬(c = ',' || c = dquote || c = '\n' || c = '\r') = true := by
      intro hor
      exact hq (List.any_eq_true.mpr ⟨c, hc, hor⟩)
    simp only [Bool.or_eq_true, decide_eq_true_eq] at this
    push_neg at this
    rcases hsep with h | h <;> subst h
    · exact ⟨this.1.1.1, this.1.1.2⟩
    · exact ⟨this.1.2, this.1.1.2⟩

theorem joinSep_comma_safe :
    ∀ (chunks : List (List Char)),
    (∀ ch ∈ chunks, scanSafe '\n' ch false = true ∧
      parityAfter ch false = false) →
    scanSafe '\n' (joinSep ',' chunks) false = true ∧
      parityAfter (joinSep ',' chunks) false = false := by
  intro chunks
  induction chunks with
  | nil => intro _; exact ⟨rfl, rfl⟩
  | cons x xs ih =>
      intro h
      have hx := h x (List.mem_cons_self ..)
      cases xs with
      | nil => simpa [joinSep] using hx
      | cons y ys =>
          have hrest := ih (fun ch hch => h ch (List.mem_cons_of_mem _ hch))
          simp only [joinSep]
          constructor
          · rw [scanSafe_append, hx.1, hx.2]
            simp only [scanSafe, parityAfter]
            simp
            exact hrest.1
          · rw [parityAfter_append, hx.2]
            simp only [parityAfter]
            simp
            exact hrest.2

theorem writeRecord_safe (fields : List (List Char)) :
    scanSafe '\n' (writeRecord fields) false = true ∧
      parityAfter (writeRecord fields) false = false := by
  apply joinSep_comma_safe
  intro ch hch
  obtain ⟨f, _, hf⟩ := List.mem_map.mp hch
  subst hf
  exact escapeField_safe '\n' (Or.inr rfl) f

theorem psplit_newline_lines :
    ∀ (lines : List (List Char)),
    (∀ l ∈ lines, scanSafe '\n' l false = true ∧
      parityAfter l false = false) →
    psplit '\n' (lines.foldr (fun l acc => l ++ '\n' :: acc) []) =
      lines ++ [[]] := by
  intro lines
  induction lines with
  | nil => intro _; rfl
  | cons l rest ih =>
      intro h
      have hl := h l (List.mem_cons_self ..)
      have hrest := ih (fun x hx => h x (List.mem_cons_of_mem _ hx))
      simp only [List.foldr_cons, psplit]
      rw [psplitAux_consume '\n' l ('\n' :: rest.foldr (fun l acc => l ++ '\n' :: acc) []) false [] hl.1, hl.2]
      simp only [psplitAux, List.nil_append]
      simp only [List.cons_append]
      rw [if_pos (by simp)]
      exact congrArg (List.cons l) hrest

theorem psplit_comma_writeRecord :
    ∀ (fs : List (List Char)), fs ≠ [] →
    psplit ',' (writeRecord fs) = fs.map escapeField := by
  intro fs
  induction fs with
  | nil => intro h; exact absurd rfl h
  | cons f rest ih =>
      intro _
      have hsafe := escapeField_safe ',' (Or.inl rfl) f
      cases rest with
      | nil =>
          show psplitAux ',' (escapeField f) false [] = [escapeField f]
          have := psplitAux_consume ',' (escapeField f) [] false [] hsafe.1
          rw [List.append_nil] at this
          rw [this]
          simp [psplitAux]
      | cons g rest2 =>
          show psplitAux ','
            (joinSep ',' (escapeField f :: escapeField g :: rest2.map escapeField))
            false [] = escapeField f :: escapeField g :: rest2.map escapeField
          simp only [joinSep]
          rw [psplitAux_consume ',' (escapeField f)
            (',' :: joinSep ',' (escapeField g :: rest2.map escapeField)) false [] hsafe.1,
            hsafe.2]
          simp only [psplitAux, List.nil_append]
          rw [if_pos (by simp)]
          exact congrArg (List.cons (escapeField f)) (ih (by simp))

theorem parseRecord_writeRecord (fs : List (List Char)) (h : fs ≠ []) :
    parseRecord (writeRecord fs) = fs := by
  rw [parseRecord, psplit_comma_writeRecord fs h, List.map_map]
  have : (unescapeField ∘ escapeField) = fun f => f :=
    funext (fun f => unescape_escape f)
  rw [this, List.map_id']

theorem writeRecord_eq_nil_iff (fs : List (List Char)) :
    writeRecord fs = [] ↔ fs = [] ∨ fs = [[]] := by
  cases fs with
  | nil => simp [writeRecord, joinSep]
  | cons f rest =>
      cases rest with
      | nil =>
          simp only [writeRecord, List.map_cons, List.map_nil, joinSep]
          constructor
          · intro hesc
            by_cases hq : needsQuote f
            · rw [escapeField, if_pos hq] at hesc
              simp at hesc
            · rw [escapeField, if_neg hq] at hesc
              simp [hesc]
          · intro hf
            have : f = [] := by
              rcases hf with hf | hf
              · simp at hf
              · simpa using hf
            subst this
            rfl
      | cons g rest2 =>
          simp only [writeRecord, List.map_cons, joinSep]
          constructor
          · intro hesc
            rcases List.append_eq_nil.mp hesc with ⟨_, h2⟩
            simp at h2
          · intro hf
            rcases hf with hf | hf <;> simp at hf

theorem renderCell_fieldValue (v : Value) :
    renderCell (fieldValue (renderCell v).data) = renderCell v := by
  cases v with
  | na => rfl
  | str s =>
      by_cases h : s.data = []
      · have hs : s = "" := by
          rw [← mk_data s, h]
        subst hs
        rfl
      · show renderCell (fieldValue s.data) = s
        rw [fieldValue, if_neg h]
        exact mk_data s

theorem filter_ne_nil_append_blank (lines : List (List Char))
    (h : ∀ l ∈ lines, l ≠ []) :
    (lines ++ [([] : List Char)]).filter (fun r => r ≠ []) = lines := by
  rw [List.filter_append]
  have h1 : ([([] : List Char)]).filter (fun r => r ≠ []) = [] := by simp
  have h2 : lines.filter (fun r => r ≠ []) = lines := by
    apply List.filter_eq_self.mpr
    intro a ha
    simpa using h a ha
  rw [h1, h2, List.append_nil]

/-- C7 (amended): export then import round-trips modulo type-to-text
formatting for every well-formed uploaded table — nonempty column list,
nonempty column names, rectangular rows — PROVIDED no data row serialises to
a blank line (i.e. the table is not a single-column table with a row whose
only cell renders empty), since the reader skips blank records.  The parsed
table has the same column names, the fresh index `0, ..., n-1`, and
cell-for-cell the same rendered text in the same row order. -/
theorem csv_export_import_roundtrip (t : Table)
    (hcols : t.cols ≠ [])
    (hname : "" ∉ t.cols)
    (hrect : ∀ r ∈ t.rows, r.length = t.cols.length)
    (hblank : ∀ r ∈ t.rows, r.map renderCell ≠ [""]) :
    ∃ t', parseCSV (convert_df_to_csv t) = some t' ∧
      t'.cols = t.cols ∧
      t'.index = List.range t.rows.length ∧
      t'.rows.map (List.map renderCell) = t.rows.map (List.map renderCell) := by
  have hdata : (convert_df_to_csv t).data =
      ((writeRecord (t.cols.map String.data)) ::
        t.rows.map (fun r => writeRecord (r.map (fun v => (renderCell v).data)))).foldr
          (fun line acc => line ++ '\n' :: acc) [] := rfl
  have hsafe : ∀ l ∈ (writeRecord (t.cols.map String.data)) ::
      t.rows.map (fun r => writeRecord (r.map (fun v => (renderCell v).data))),
      scanSafe '\n' l false = true ∧ parityAfter l false = false := by
    intro l hl
    rcases List.mem_cons.mp hl with hl | hl
    · subst hl
      exact writeRecord_safe _
    · obtain ⟨r, _, hr⟩ := List.mem_map.mp hl
      subst hr
      exact writeRecord_safe _
  have hsplit : psplit '\n' (convert_df_to_csv t).data =
      ((writeRecord (t.cols.map String.data)) ::
        t.rows.map (fun r => writeRecord (r.map (fun v => (renderCell v).data)))) ++
        [[]] := by
    rw [hdata]
    exact psplit_newline_lines _ hsafe
  have hheader_ne : writeRecord (t.cols.map String.data) ≠ [] := by
    rw [Ne, writeRecord_eq_nil_iff]
    rintro (h | h)
    · exact hcols (List.map_eq_nil.mp h)
    · have hlen : t.cols.length = 1 := by
        have := congrArg List.length h
        simpa using this
      obtain ⟨s, hs⟩ := List.length_eq_one.mp hlen
      rw [hs] at h
      have hsd : s.data = [] := by simpa using h
      have hse : s = "" := by rw [← mk_data s, hsd]
      apply hname
      rw [hs, ← hse]
      exact List.mem_cons_self ..
  have hcolpos : 0 < t.cols.length := by
    cases hcl : t.cols with
    | nil => exact absurd hcl hcols
    | cons a as => simp
  have hdata_ne : ∀ r ∈ t.rows,
      writeRecord (r.map (fun v => (renderCell v).data)) ≠ [] := by
    intro r hr
    rw [Ne, writeRecord_eq_nil_iff]
    rintro (h | h)
    · have hre : r = [] := List.map_eq_nil.mp h
      have := hrect r hr
      rw [hre] at this
      simp at this
      omega
    · have hlen : r.length = 1 := by
        have := congrArg List.length h
        simpa using this
      obtain ⟨v, hv⟩ := List.length_eq_one.mp hlen
      rw [hv] at h
      have hvd : (renderCell v).data = [] := by simpa using h
      have hve : renderCell v = "" := by rw [← mk_data (renderCell v), hvd]
      apply hblank r hr
      rw [hv]
      simp [hve]
  have hall_ne : ∀ l ∈ (writeRecord (t.cols.map String.data)) ::
      t.rows.map (fun r => writeRecord (r.map (fun v => (renderCell v).data))), l ≠ [] := by
    intro l hl
    rcases List.mem_cons.mp hl with hl | hl
    · subst hl
      exact hheader_ne
    · obtain ⟨r, hrmem, hr⟩ := List.mem_map.mp hl
      subst hr
      exact hdata_ne r hrmem
  have hscrut : (psplit '\n' (convert_df_to_csv t).data).filter (fun r => r ≠ []) =
      (writeRecord (t.cols.map String.data)) ::
        t.rows.map (fun r => writeRecord (r.map (fun v => (renderCell v).data))) := by
    rw [hsplit]
    exact filter_ne_nil_append_blank _ hall_ne
  have hcolsmap : t.cols.map String.data ≠ [] := fun h => hcols (List.map_eq_nil.mp h)
  have hmain : parseCSV (convert_df_to_csv t) = some
      { cols := (parseRecord (writeRecord (t.cols.map String.data))).map String.mk
        index := List.range (t.rows.map (fun r =>
          writeRecord (r.map (fun v => (renderCell v).data)))).length
        rows := (t.rows.map (fun r =>
          writeRecord (r.map (fun v => (renderCell v).data)))).map
            (fun rec => (parseRecord rec).map fieldValue) } := by
    unfold parseCSV
    rw [hscrut]
  refine ⟨_, hmain, ?_, ?_, ?_⟩
  · show (parseRecord (writeRecord (t.cols.map String.data))).map String.mk = t.cols
    rw [parseRecord_writeRecord _ hcolsmap, List.map_map]
    have hmk : (String.mk ∘ String.data) = fun s => s := funext (fun s => mk_data s)
    rw [hmk, List.map_id']
  · show List.range (t.rows.map (fun r =>
        writeRecord (r.map (fun v => (renderCell v).data)))).length =
      List.range t.rows.length
    rw [List.length_map]
  · show ((t.rows.map (fun r => writeRecord (r.map (fun v => (renderCell v).data)))).map
        (fun rec => (parseRecord rec).map fieldValue)).map (List.map renderCell) =
      t.rows.map (List.map renderCell)
    rw [List.map_map, List.map_map]
    apply List.map_congr_left
    intro r hr
    have hfields_ne : r.map (fun v => (renderCell v).data) ≠ [] := by
      intro h
      have hre : r = [] := List.map_eq_nil.mp h
      have := hrect r hr
      rw [hre] at this
      simp at this
      omega
    simp only [Function.comp]
    rw [parseRecord_writeRecord _ hfields_ne, List.map_map, List.map_map]
    apply List.map_congr_left
    intro v _
    simp only [Function.comp]
    exact renderCell_fieldValue v

/-- Witness for C7 (amended) on a table with a comma-bearing value and a
missing cell: the export parses back to a table with the same names and the
same rendered cells. -/
theorem csv_export_import_roundtrip_witness :
    (({ cols := ["a", "b"], index := [0, 1], rows := [[Value.str "x,y", Value.na], [Value.str "q", Value.str "2"]] } : Table).cols ≠ []) ∧
    ∃ t', parseCSV (convert_df_to_csv { cols := ["a", "b"], index := [0, 1], rows := [[Value.str "x,y", Value.na], [Value.str "q", Value.str "2"]] }) = some t' ∧
      t'.cols = ({ cols := ["a", "b"], index := [0, 1], rows := [[Value.str "x,y", Value.na], [Value.str "q", Value.str "2"]] } : Table).cols ∧
      t'.index = List.range ({ cols := ["a", "b"], index := [0, 1], rows := [[Value.str "x,y", Value.na], [Value.str "q", Value.str "2"]] } : Table).rows.length ∧
      t'.rows.map (List.map renderCell) =
        ({ cols := ["a", "b"], index := [0, 1], rows := [[Value.str "x,y", Value.na], [Value.str "q", Value.str "2"]] } : Table).rows.map (List.map renderCell) :=
  ⟨by decide, csv_export_import_roundtrip
    { cols := ["a", "b"], index := [0, 1]
      rows := [[Value.str "x,y", Value.na], [Value.str "q", Value.str "2"]] }
    (by decide) (by decide) (by decide) (by decide)⟩

/-- Counterexample to C7 as stated: `tblC7` is itself an uploaded table (it
is what the reader produces for the upload `a\n'""'\n`, whose single field
is a quoted empty string, read as missing), yet its export `a\n\n` has a
blank data line, which the reader skips: the re-imported table has 0 rows
instead of 1, so the round trip does not preserve the rows. -/
theorem csv_roundtrip_blank_row_counterexample :
    parseCSV (String.mk ['a', '\n', dquote, dquote, '\n']) = some tblC7 ∧
    tblC7.rows.length = 1 ∧
    convert_df_to_csv tblC7 = "a\n\n" ∧
    (parseCSV (convert_df_to_csv tblC7)).map (fun t' => t'.rows.length) =
      some 0 := by
  refine ⟨by rfl, by rfl, by rfl, by rfl⟩

/-- Witness for C5: with no column selected the fill is the identity on a
concrete table, by the fill characterisation theorem. -/
theorem fillNA_fills_exactly_selected_missing_witness :
    fillNA { cols := ["a"], index := [0], rows := [[Value.na]] } [] "0" =
      { cols := ["a"], index := [0], rows := [[Value.na]] } :=
  (fillNA_fills_exactly_selected_missing
    { cols := ["a"], index := [0], rows := [[Value.na]] } [] "0").2.2.2.2 rfl
